import Mathlib

/-!
Verification of the scgc conservative mark-and-sweep garbage collector.

The embedding models the collector state (`Gc`) with machine addresses as
natural numbers.  The record table is modelled as a total function from slot
indices to `Record` values: slot `i` stands for the bytes at
`heap_end - i * record_size` reinterpreted as a `Record`, so slot indices
`1 .. record_count` are the table proper and any other index (in particular
index 0, which the address resolver can produce) stands for out-of-table
bytes whose content is arbitrary.  Data memory is modelled by `mem`, the
pointer-sized value obtained by dereferencing a byte address; the collector
never writes data bytes, so `mem` is a fixed component of the state.
Operations that can panic (the root-range unwraps in the cleanup pass)
return `Option`, with `none` standing for the panic.
-/

namespace Scgc

inductive RecordStatus where
  | Unknown
  | Touched
  | Referred
  | Deallocated
deriving DecidableEq, Repr

structure Record where
  addr : Nat
  size : Nat
  status : RecordStatus
deriving DecidableEq, Repr

/-- Size in bytes of one `Record` slot (`mem::size_of::<Record>()` on the
64-bit target: two 8-byte words plus the status discriminant, padded). -/
def record_size : Nat := 24

structure Gc where
  heap_begin : Nat
  heap_free : Nat
  heap_end : Nat
  heap_size : Nat
  stack_begin : Option Nat
  stack_end : Option Nat
  record_count : Nat
  records : Nat → Record
  mem : Nat → Nat

/-- Pointwise update of the record table at one slot index. -/
def setRec (f : Nat → Record) (i : Nat) (r : Record) : Nat → Record :=
  fun j => if j = i then r else f j

/-- `Gc::new`: fresh collector over the arena `[base, base + size)`.
The record-table bytes are uninitialized memory, so the fresh table content
`rec0` (and the data memory `mem0`) are arbitrary parameters. -/
def Gc.new (base size : Nat) (mem0 : Nat → Nat) (rec0 : Nat → Record) : Gc :=
  { heap_begin := base
    heap_free := base
    heap_end := base + size
    heap_size := size
    stack_begin := none
    stack_end := none
    record_count := 0
    records := rec0
    mem := mem0 }

/-- The binary-search loop of `Gc::find_record`, with the loop variables
`lo`/`hi` for `start`/`end`.  The source loop runs `while end - start > 1`
and, on falling out of the loop, returns the record at slot `start`
unconditionally.  The first argument is fuel; each iteration shrinks
`hi - lo` by at least one, so any fuel of at least `hi - lo` is exact. -/
def frLoop (g : Gc) (a : Nat) : Nat → Nat → Nat → Nat
  | 0, lo, _ => lo
  | fuel+1, lo, hi =>
    if hi - lo > 1 then
      if (g.records ((lo + hi) / 2)).addr ≤ a then
        if a < (g.records ((lo + hi) / 2)).addr + (g.records ((lo + hi) / 2)).size then
          (lo + hi) / 2
        else frLoop g a fuel ((lo + hi) / 2) hi
      else frLoop g a fuel lo ((lo + hi) / 2)
    else lo

/-- `Gc::find_record`: returns the slot index of the record the resolver
produces, or `none` when the address lies outside `[heap_begin, heap_end]`.
Note that inside the bounds the source always produces a record reference
(the loop fallout returns slot `start` without a containment check). -/
def find_record (g : Gc) (a : Nat) : Option Nat :=
  if g.heap_begin ≤ a ∧ a ≤ g.heap_end then
    some (frLoop g a (g.record_count + 1) 0 g.record_count)
  else none

/-- One iteration of the `Gc::scan_touch` loop at byte address `p`: read the
pointer-sized value at `p`, resolve it, and if the resolved record is
`Unknown`, set it to `Touched`. -/
def touchStep (g : Gc) (p : Nat) : Gc :=
  match find_record g (g.mem p) with
  | some i =>
    if (g.records i).status = RecordStatus.Unknown then
      { g with records := setRec g.records i { g.records i with status := RecordStatus.Touched } }
    else g
  | none => g

/-- `Gc::scan_touch`: conservatively scan every byte address of `[b, e)`. -/
def scan_touch (g : Gc) (b e : Nat) : Gc :=
  (List.range (e - b)).foldl (fun g' o => touchStep g' (b + o)) g

/-- Apply a per-record transformation to table slots `1 .. n` in slot order.
Both the initialization loop and the sweep loop of `Gc::inner_cleanup` have
this shape. -/
def tableMap (F : Record → Record) (g : Gc) (n : Nat) : Gc :=
  (List.range n).foldl
    (fun g' k => { g' with records := setRec g'.records (k+1) (F (g'.records (k+1))) }) g

/-- The initialization step of `Gc::inner_cleanup` on one record: reset
every non-`Deallocated` status to `Unknown`. -/
def initF (r : Record) : Record :=
  if r.status = RecordStatus.Deallocated then r else { r with status := RecordStatus.Unknown }

/-- `Gc::free_record`: mark the record deallocated (memory is not cleared). -/
def free_record (r : Record) : Record :=
  { r with status := RecordStatus.Deallocated }

/-- The sweep step of `Gc::inner_cleanup` on one record: reclaim it when it
is still `Unknown` after the mark fixed point. -/
def sweepF (r : Record) : Record :=
  if r.status = RecordStatus.Unknown then free_record r else r

/-- The initialization loop of `Gc::inner_cleanup`. -/
def initRecords (g : Gc) : Gc := tableMap initF g g.record_count

/-- The sweep loop of `Gc::inner_cleanup`. -/
def sweep (g : Gc) : Gc := tableMap sweepF g g.record_count

/-- Set the status of table slot `i` to `Referred` (used when the mark loop
promotes a `Touched` record, and when a `Deallocated` record is reused). -/
def markReferred (g : Gc) (i : Nat) : Gc :=
  { g with records := setRec g.records i { g.records i with status := RecordStatus.Referred } }

/-- One step of one pass of the mark fixed-point loop, at table slot `i`:
if the record is currently `Touched`, promote it to `Referred` and
conservatively scan its data range, recording that this pass found a
touched record. -/
def passStep (p : Gc × Bool) (i : Nat) : Gc × Bool :=
  if (p.1.records i).status = RecordStatus.Touched then
    let g' := markReferred p.1 i
    (scan_touch g' (g'.records i).addr ((g'.records i).addr + (g'.records i).size), true)
  else p

/-- One pass of the mark fixed-point loop over table slots `1 .. count`,
in slot order; the flag records whether any `Touched` record was found
(the lazily evaluated filter of the source reads each status at the moment
its slot is visited, which this left fold reproduces). -/
def markPass (g : Gc) : Gc × Bool :=
  (List.range g.record_count).foldl (fun p k => passStep p (k+1)) (g, false)

/-- The `while has_touched_record` loop of `Gc::inner_cleanup`, with fuel.
Each flagged pass strictly increases the status measure, which is bounded
by `2 * record_count`, so fuel `2 * record_count + 1` always reaches the
genuine fixed point (proved below). -/
def markLoopF : Nat → Gc → Gc
  | 0, g => g
  | fuel+1, g =>
    if (markPass g).2 then markLoopF fuel (markPass g).1 else (markPass g).1

/-- The whole mark phase of `Gc::inner_cleanup` for the root range `[b, e)`:
initialize statuses, scan the root range, then run the fixed-point loop. -/
def markPhase (g : Gc) (b e : Nat) : Gc :=
  let g2 := scan_touch (initRecords g) b e
  markLoopF (2 * g2.record_count + 1) g2

/-- `Gc::inner_cleanup`.  The source unwraps `stack_begin` and `stack_end`;
an unset root bound panics, modelled by `none`. -/
def inner_cleanup (g : Gc) : Option Gc :=
  match g.stack_begin, g.stack_end with
  | some b, some e => some (sweep (markPhase g b e))
  | _, _ => none

/-- `Gc::cleanup` (the public wrapper only adds logging). -/
def cleanup (g : Gc) : Option Gc := inner_cleanup g

/-- The linear first-fit scan of `Gc::malloc_from_deallocated`, beginning at
slot `i` with `rem` slots left to examine. -/
def mfdFindAux (g : Gc) (k : Nat) : Nat → Nat → Option Nat
  | _, 0 => none
  | i, rem+1 =>
    if (g.records i).status = RecordStatus.Deallocated ∧ k ≤ (g.records i).size then some i
    else mfdFindAux g k (i+1) rem

/-- The slot index selected by `Gc::malloc_from_deallocated`: the first slot
in order `1 .. record_count` holding a `Deallocated` record of size at least
`k`, if any. -/
def malloc_from_deallocated (g : Gc) (k : Nat) : Option Nat :=
  mfdFindAux g k 1 g.record_count

/-- The bump-path condition of `Gc::malloc`, exactly as the source computes
it: `size + record_size <= heap_end - heap_free - record_size * record_count`
in machine arithmetic. -/
def bumpCond (g : Gc) (k : Nat) : Bool :=
  k + record_size ≤ g.heap_end - g.heap_free - record_size * g.record_count

/-- `Gc::malloc`: bump path, then first-fit reuse, then one cleanup followed
by one reuse retry.  The result pairs the returned address (or `none` for
allocation failure) with the post state; the outer `none` is the panic of a
cleanup running with unset root bounds. -/
def malloc (g : Gc) (k : Nat) : Option (Option Nat × Gc) :=
  if bumpCond g k then
    let result := g.heap_free
    let g' : Gc :=
      { g with heap_free := g.heap_free + k, record_count := g.record_count + 1 }
    some (some result,
      { g' with records := setRec g'.records g'.record_count ⟨result, k, RecordStatus.Referred⟩ })
  else
    match malloc_from_deallocated g k with
    | some i => some (some (g.records i).addr, markReferred g i)
    | none =>
      match cleanup g with
      | none => none
      | some gC =>
        match malloc_from_deallocated gC k with
        | some i => some (some (gC.records i).addr, markReferred gC i)
        | none => some (none, gC)

/-- The state built by the bump path of `Gc::malloc`: advance the free
cursor by `k`, extend the table by one slot, and write the fresh record
into that slot. -/
def bumpState (g : Gc) (k : Nat) : Gc :=
  { g with heap_free := g.heap_free + k,
           record_count := g.record_count + 1,
           records := setRec g.records (g.record_count + 1)
             ⟨g.heap_free, k, RecordStatus.Referred⟩ }

/-- The public operations of a `Gc` instance. -/
inductive GcOp where
  | malloc (size : Nat)
  | cleanup
  | stackBegin (a : Nat)
  | stackEnd (a : Nat)

/-- Apply one public operation; `none` is a panic. -/
def applyOp (g : Gc) : GcOp → Option Gc
  | GcOp.malloc k => (malloc g k).map (fun p => p.2)
  | GcOp.cleanup => cleanup g
  | GcOp.stackBegin a => some { g with stack_begin := some a }
  | GcOp.stackEnd a => some { g with stack_end := some a }

/-- Run a sequence of public operations. -/
def runOps : Gc → List GcOp → Option Gc
  | g, [] => some g
  | g, op :: rest =>
    match applyOp g op with
    | some g' => runOps g' rest
    | none => none

/-- Status measure used to bound the mark fixed-point loop: statuses only
move up this ranking during marking. -/
def rank : RecordStatus → Nat
  | RecordStatus.Unknown => 0
  | RecordStatus.Touched => 1
  | RecordStatus.Referred => 2
  | RecordStatus.Deallocated => 0

/-- Total status measure of table slots `1 .. n`. -/
def measN (n : Nat) (g : Gc) : Nat :=
  Finset.sum (Finset.range n) (fun k => rank (g.records (k+1)).status)

/-- Slot `i` was reached by the mark phase run on state `g` with root range
`[b, e)`: it ends the fixed point `Touched` or `Referred`. -/
def reachedInMark (g : Gc) (b e : Nat) (i : Nat) : Prop :=
  ((markPhase g b e).records i).status = RecordStatus.Touched ∨
  ((markPhase g b e).records i).status = RecordStatus.Referred

/-- All state components except the record table are equal. -/
def sameShape (g g' : Gc) : Prop :=
  g'.heap_begin = g.heap_begin ∧ g'.heap_free = g.heap_free ∧ g'.heap_end = g.heap_end ∧
  g'.heap_size = g.heap_size ∧ g'.stack_begin = g.stack_begin ∧ g'.stack_end = g.stack_end ∧
  g'.record_count = g.record_count ∧ g'.mem = g.mem

/-- Preservation relation for the mark phase: only statuses change, they
never change to or from `Deallocated`, and they only move up the `rank`
ordering. -/
def presMark (g g' : Gc) : Prop :=
  sameShape g g' ∧
  ∀ i, (g'.records i).addr = (g.records i).addr ∧
    (g'.records i).size = (g.records i).size ∧
    ((g'.records i).status = RecordStatus.Deallocated ↔
      (g.records i).status = RecordStatus.Deallocated) ∧
    rank (g.records i).status ≤ rank (g'.records i).status

/-- The arena invariant: the bump region `[heap_begin, heap_free)` and the
record table (the last `record_count` slots ending at `heap_end`) fit in
the arena without overlapping. -/
def arenaInv (g : Gc) : Prop :=
  g.heap_begin ≤ g.heap_free ∧
  g.heap_free + record_size * g.record_count ≤ g.heap_end

/-- A state whose single record is directly referenced from the root range:
the word at root address 100 is 1000, the first byte of the data range of
record 1. -/
def c1Gc : Gc :=
  { heap_begin := 1000, heap_free := 1008, heap_end := 2024, heap_size := 1024,
    stack_begin := some 100, stack_end := some 108, record_count := 1,
    records := fun i => if i = 1 then ⟨1000, 8, RecordStatus.Referred⟩
                        else ⟨0, 0, RecordStatus.Referred⟩,
    mem := fun p => if p = 100 then 1000 else 0 }

/-- A state with an empty record table. -/
def c2Gc : Gc :=
  { heap_begin := 1000, heap_free := 1000, heap_end := 2024, heap_size := 1024,
    stack_begin := none, stack_end := none, record_count := 0,
    records := fun _ => ⟨0, 0, RecordStatus.Referred⟩,
    mem := fun _ => 0 }

/-- Witness state for the collect-and-retry path: one live record, no bump
room, root range seeing no arena addresses. -/
def c3W : Gc :=
  { heap_begin := 1000, heap_free := 1008, heap_end := 1040, heap_size := 40,
    stack_begin := some 100, stack_end := some 101, record_count := 1,
    records := fun i => if i = 1 then ⟨1000, 8, RecordStatus.Referred⟩
                        else ⟨0, 0, RecordStatus.Referred⟩,
    mem := fun _ => 0 }

/-- Witness state for the cleanup characterization: record 1 is referenced
from the root range (and is found by the resolver because the table has two
slots), record 2 is unreachable. -/
def c4W : Gc :=
  { heap_begin := 1000, heap_free := 1016, heap_end := 2024, heap_size := 1024,
    stack_begin := some 100, stack_end := some 116, record_count := 2,
    records := fun i => if i = 1 then ⟨1000, 8, RecordStatus.Referred⟩
                        else if i = 2 then ⟨1008, 8, RecordStatus.Referred⟩
                        else ⟨0, 0, RecordStatus.Referred⟩,
    mem := fun p => if p = 100 then 1000 else 0 }

/-- The cleanup result on `c4W`. -/
def c4W' : Gc := sweep (markPhase c4W 100 116)

/-- Witness state for the bump path: fresh empty arena. -/
def c5W : Gc :=
  { heap_begin := 1000, heap_free := 1000, heap_end := 2024, heap_size := 1024,
    stack_begin := none, stack_end := none, record_count := 0,
    records := fun _ => ⟨0, 0, RecordStatus.Referred⟩,
    mem := fun _ => 0 }

/-- Witness state for first-fit reuse: slot 1 is a deallocated record that
is too small, slot 2 a deallocated record that fits, slot 3 live; the bump
region is exhausted. -/
def c6W : Gc :=
  { heap_begin := 1000, heap_free := 1020, heap_end := 1096, heap_size := 96,
    stack_begin := none, stack_end := none, record_count := 3,
    records := fun i => if i = 1 then ⟨1000, 4, RecordStatus.Deallocated⟩
                        else if i = 2 then ⟨1004, 8, RecordStatus.Deallocated⟩
                        else if i = 3 then ⟨1012, 8, RecordStatus.Referred⟩
                        else ⟨0, 0, RecordStatus.Referred⟩,
    mem := fun _ => 0 }

/-- Fresh witness state for operation sequences. -/
def c7W : Gc := Gc.new 1000 1024 (fun _ => 0) (fun _ => ⟨0, 0, RecordStatus.Referred⟩)

/-- Witness operation sequence: register roots, allocate, collect (which
reclaims the unreferenced record), allocate again. -/
def c7Ops : List GcOp :=
  [GcOp.stackBegin 100, GcOp.stackEnd 108, GcOp.malloc 8, GcOp.cleanup, GcOp.malloc 4]

/-- The state reached by `c7Ops` from `c7W`. -/
def c7W' : Gc := (runOps c7W c7Ops).getD c7W

/-- Fresh witness state for the arena invariant. -/
def c8W : Gc := Gc.new 2000 512 (fun _ => 0) (fun _ => ⟨0, 0, RecordStatus.Referred⟩)

/-- Witness operation sequence for the arena invariant. -/
def c8Ops : List GcOp :=
  [GcOp.stackBegin 100, GcOp.stackEnd 104, GcOp.malloc 16, GcOp.malloc 8, GcOp.cleanup]

/-- The state reached by `c8Ops` from `c8W`. -/
def c8W' : Gc := (runOps c8W c8Ops).getD c8W

/-- Witness state for the cleanup frame property. -/
def c9W : Gc :=
  { heap_begin := 1000, heap_free := 1016, heap_end := 2024, heap_size := 1024,
    stack_begin := some 200, stack_end := some 216, record_count := 2,
    records := fun i => if i = 1 then ⟨1000, 8, RecordStatus.Referred⟩
                        else if i = 2 then ⟨1008, 8, RecordStatus.Deallocated⟩
                        else ⟨0, 0, RecordStatus.Referred⟩,
    mem := fun p => if p = 200 then 1000 else 0 }

/-- The cleanup result on `c9W`. -/
def c9W' : Gc := sweep (markPhase c9W 200 216)

/-- Witness state with unset root bounds. -/
def c10W : Gc :=
  { heap_begin := 1000, heap_free := 1008, heap_end := 1040, heap_size := 40,
    stack_begin := none, stack_end := some 104, record_count := 1,
    records := fun i => if i = 1 then ⟨1000, 8, RecordStatus.Referred⟩
                        else ⟨0, 0, RecordStatus.Referred⟩,
    mem := fun _ => 0 }

theorem foldl_rel {α β : Type} (R : α → α → Prop) (hrefl : ∀ a, R a a)
    (htrans : ∀ a b c, R a b → R b c → R a c)
    (step : α → β → α) (hstep : ∀ a x, R a (step a x)) :
    ∀ (l : List β) (a : α), R a (l.foldl step a) := by
  intro l
  induction l with
  | nil => intro a; exact hrefl a
  | cons x xs ih => intro a; exact htrans _ _ _ (hstep a x) (ih (step a x))

theorem foldl_inv {α β : Type} (Q : α → Prop) (S : β → Prop) (step : α → β → α)
    (hstep : ∀ a x, S x → Q a → Q (step a x)) :
    ∀ (l : List β), (∀ x ∈ l, S x) → ∀ a, Q a → Q (l.foldl step a) := by
  intro l
  induction l with
  | nil => intro _ a ha; exact ha
  | cons x xs ih =>
    intro hS a ha
    exact ih (fun y hy => hS y (List.mem_cons_of_mem x hy)) (step a x)
      (hstep a x (hS x (List.mem_cons_self x xs)) ha)

theorem sameShape_refl (g : Gc) : sameShape g g := by
  unfold sameShape; tauto

theorem sameShape_trans {g g' g'' : Gc} (h1 : sameShape g g') (h2 : sameShape g' g'') :
    sameShape g g'' := by
  unfold sameShape at *
  obtain ⟨a1, a2, a3, a4, a5, a6, a7, a8⟩ := h1
  obtain ⟨b1, b2, b3, b4, b5, b6, b7, b8⟩ := h2
  refine ⟨?_, ?_, ?_, ?_, ?_, ?_, ?_, ?_⟩ <;> simp_all

theorem presMark_refl (g : Gc) : presMark g g :=
  ⟨sameShape_refl g, fun _ => ⟨rfl, rfl, Iff.rfl, le_refl _⟩⟩

theorem presMark_trans {g g' g'' : Gc} (h1 : presMark g g') (h2 : presMark g' g'') :
    presMark g g'' := by
  obtain ⟨hs1, hr1⟩ := h1
  obtain ⟨hs2, hr2⟩ := h2
  refine ⟨sameShape_trans hs1 hs2, fun i => ?_⟩
  obtain ⟨a1, a2, a3, a4⟩ := hr1 i
  obtain ⟨b1, b2, b3, b4⟩ := hr2 i
  exact ⟨b1.trans a1, b2.trans a2, b3.trans a3, a4.trans b4⟩

theorem tableMap_succ (F : Record → Record) (g : Gc) (n : Nat) :
    tableMap F g (n+1) =
      { tableMap F g n with
        records := setRec (tableMap F g n).records (n+1)
          (F ((tableMap F g n).records (n+1))) } := by
  unfold tableMap
  rw [List.range_succ, List.foldl_append]
  rfl

theorem tableMap_records (F : Record → Record) (g : Gc) (n : Nat) (j : Nat) :
    (tableMap F g n).records j =
      if 1 ≤ j ∧ j ≤ n then F (g.records j) else g.records j := by
  induction n with
  | zero =>
    have h : ¬ (1 ≤ j ∧ j ≤ 0) := by omega
    rw [if_neg h]
    simp [tableMap]
  | succ n ih =>
    rw [tableMap_succ]
    show setRec (tableMap F g n).records (n+1) (F ((tableMap F g n).records (n+1))) j = _
    unfold setRec
    by_cases hj : j = n+1
    · subst hj
      have hc : ¬ (1 ≤ n+1 ∧ n+1 ≤ n) := by omega
      have hc2 : 1 ≤ n+1 ∧ n+1 ≤ n+1 := by omega
      simp [ih, hc, hc2]
    · by_cases hb : 1 ≤ j ∧ j ≤ n
      · have hb2 : 1 ≤ j ∧ j ≤ n+1 := by omega
        simp [hj, ih, hb, hb2]
      · have hb2 : ¬ (1 ≤ j ∧ j ≤ n+1) := by omega
        simp [hj, ih, hb, hb2]

theorem tableMap_sameShape (F : Record → Record) (g : Gc) (n : Nat) :
    sameShape g (tableMap F g n) := by
  unfold tableMap
  exact foldl_rel sameShape sameShape_refl (fun _ _ _ => sameShape_trans)
    _ (fun a k => by unfold sameShape; tauto) _ g

theorem tableMap_skeleton (F : Record → Record)
    (hF : ∀ r, (F r).addr = r.addr ∧ (F r).size = r.size) (g : Gc) (n j : Nat) :
    ((tableMap F g n).records j).addr = (g.records j).addr ∧
    ((tableMap F g n).records j).size = (g.records j).size := by
  rw [tableMap_records]
  split
  · exact (hF (g.records j))
  · exact ⟨rfl, rfl⟩

theorem initF_skeleton (r : Record) : (initF r).addr = r.addr ∧ (initF r).size = r.size := by
  unfold initF
  split <;> exact ⟨rfl, rfl⟩

theorem sweepF_skeleton (r : Record) : (sweepF r).addr = r.addr ∧ (sweepF r).size = r.size := by
  unfold sweepF free_record
  split <;> exact ⟨rfl, rfl⟩

theorem presMark_touch (g : Gc) (i : Nat)
    (hs : (g.records i).status = RecordStatus.Unknown) :
    presMark g
      { g with records :=
          setRec g.records i ({ g.records i with status := RecordStatus.Touched }) } := by
  refine ⟨⟨rfl, rfl, rfl, rfl, rfl, rfl, rfl, rfl⟩, fun j => ?_⟩
  dsimp only
  unfold setRec
  by_cases hj : j = i
  · subst hj
    rw [if_pos rfl]
    refine ⟨rfl, rfl, ?_, ?_⟩
    · simp [hs]
    · simp [hs, rank]
  · rw [if_neg hj]
    exact ⟨rfl, rfl, Iff.rfl, le_refl _⟩

theorem presMark_refer (g : Gc) (i : Nat)
    (hs : (g.records i).status = RecordStatus.Touched) :
    presMark g (markReferred g i) := by
  refine ⟨⟨rfl, rfl, rfl, rfl, rfl, rfl, rfl, rfl⟩, fun j => ?_⟩
  unfold markReferred
  dsimp only
  unfold setRec
  by_cases hj : j = i
  · subst hj
    rw [if_pos rfl]
    refine ⟨rfl, rfl, ?_, ?_⟩
    · simp [hs]
    · simp [hs, rank]
  · rw [if_neg hj]
    exact ⟨rfl, rfl, Iff.rfl, le_refl _⟩

theorem touchStep_presMark (g : Gc) (p : Nat) : presMark g (touchStep g p) := by
  unfold touchStep
  rcases hf : find_record g (g.mem p) with _ | i
  · exact presMark_refl g
  · dsimp only
    by_cases hs : (g.records i).status = RecordStatus.Unknown
    · rw [if_pos hs]
      exact presMark_touch g i hs
    · rw [if_neg hs]
      exact presMark_refl g

theorem scan_touch_presMark (g : Gc) (b e : Nat) : presMark g (scan_touch g b e) := by
  unfold scan_touch
  exact foldl_rel presMark presMark_refl (fun _ _ _ => presMark_trans)
    _ (fun a o => touchStep_presMark a (b + o)) _ g

theorem passStep_rel (p : Gc × Bool) (i : Nat) :
    presMark p.1 (passStep p i).1 ∧ (p.2 = true → (passStep p i).2 = true) := by
  unfold passStep
  by_cases hs : (p.1.records i).status = RecordStatus.Touched
  · rw [if_pos hs]
    exact ⟨presMark_trans (presMark_refer p.1 i hs) (scan_touch_presMark _ _ _), fun _ => rfl⟩
  · rw [if_neg hs]
    exact ⟨presMark_refl _, fun h => h⟩

theorem markPass_rel (g : Gc) : presMark g (markPass g).1 := by
  unfold markPass
  have h := foldl_rel (α := Gc × Bool) (β := Nat)
    (fun p q => presMark p.1 q.1 ∧ (p.2 = true → q.2 = true))
    (fun p => ⟨presMark_refl _, fun h => h⟩)
    (fun a b c hab hbc => ⟨presMark_trans hab.1 hbc.1, fun h => hbc.2 (hab.2 h)⟩)
    (fun p k => passStep p (k+1)) (fun p k => passStep_rel p (k+1))
    (List.range g.record_count) (g, false)
  exact h.1

theorem markPass_flag_mono (p : Gc × Bool) (l : List Nat) (h : p.2 = true) :
    (l.foldl (fun q k => passStep q (k+1)) p).2 = true := by
  induction l generalizing p with
  | nil => exact h
  | cons k l ih =>
    apply ih
    exact (passStep_rel p (k+1)).2 h

theorem markLoopF_pres (fuel : Nat) (g : Gc) : presMark g (markLoopF fuel g) := by
  induction fuel generalizing g with
  | zero => exact presMark_refl g
  | succ n ih =>
    unfold markLoopF
    by_cases h : (markPass g).2 = true
    · rw [if_pos h]
      exact presMark_trans (markPass_rel g) (ih _)
    · rw [if_neg h]
      exact markPass_rel g

theorem markPhase_pres (g : Gc) (b e : Nat) :
    presMark (initRecords g) (markPhase g b e) := by
  unfold markPhase
  exact presMark_trans (scan_touch_presMark _ b e) (markLoopF_pres _ _)

theorem cleanup_eq (g : Gc) (b e : Nat) (hb : g.stack_begin = some b)
    (he : g.stack_end = some e) :
    cleanup g = some (sweep (markPhase g b e)) := by
  unfold cleanup inner_cleanup
  rw [hb, he]

theorem cleanup_pres (g g' : Gc) (h : cleanup g = some g') :
    sameShape g g' ∧
    ∀ i, (g'.records i).addr = (g.records i).addr ∧
         (g'.records i).size = (g.records i).size := by
  unfold cleanup inner_cleanup at h
  rcases hb : g.stack_begin with _ | b <;> rw [hb] at h
  · exact absurd h (by simp)
  rcases he : g.stack_end with _ | e <;> rw [he] at h
  · exact absurd h (by simp)
  have hg' : g' = sweep (markPhase g b e) := by
    injection h with h'
    exact h'.symm
  subst hg'
  have p1 : sameShape g (initRecords g) := tableMap_sameShape _ _ _
  have p2 := markPhase_pres g b e
  have p3 : sameShape (markPhase g b e) (sweep (markPhase g b e)) := tableMap_sameShape _ _ _
  constructor
  · exact sameShape_trans (sameShape_trans p1 p2.1) p3
  · intro i
    have s1 := tableMap_skeleton initF initF_skeleton g g.record_count i
    have s2 := (p2.2 i)
    have s3 := tableMap_skeleton sweepF sweepF_skeleton (markPhase g b e)
      (markPhase g b e).record_count i
    unfold initRecords at s2
    constructor
    · rw [show sweep (markPhase g b e) = tableMap sweepF (markPhase g b e) (markPhase g b e).record_count from rfl]
      rw [s3.1, s2.1, s1.1]
    · rw [show sweep (markPhase g b e) = tableMap sweepF (markPhase g b e) (markPhase g b e).record_count from rfl]
      rw [s3.2, s2.2.1, s1.2]

theorem sameShape_count {g g' : Gc} (h : sameShape g g') :
    g'.record_count = g.record_count := h.2.2.2.2.2.2.1

theorem rank_le_two (s : RecordStatus) : rank s ≤ 2 := by
  cases s <;> simp [rank]

theorem measN_le (n : Nat) (g : Gc) : measN n g ≤ 2 * n := by
  unfold measN
  calc Finset.sum (Finset.range n) (fun k => rank (g.records (k+1)).status)
      ≤ Finset.sum (Finset.range n) (fun _ => 2) :=
        Finset.sum_le_sum (fun k _ => rank_le_two _)
    _ = 2 * n := by simp [Finset.sum_const, Finset.card_range, Nat.mul_comm]

theorem measN_mono (n : Nat) {g g' : Gc}
    (h : ∀ i, rank (g.records i).status ≤ rank (g'.records i).status) :
    measN n g ≤ measN n g' :=
  Finset.sum_le_sum (fun k _ => h (k+1))

theorem presMark_measN (n : Nat) {g g' : Gc} (h : presMark g g') :
    measN n g ≤ measN n g' :=
  measN_mono n (fun i => (h.2 i).2.2.2)

theorem measN_refer_lt (n : Nat) (g : Gc) (i : Nat) (h1 : 1 ≤ i) (h2 : i ≤ n)
    (hs : (g.records i).status = RecordStatus.Touched) :
    measN n g < measN n (markReferred g i) := by
  unfold measN
  apply Finset.sum_lt_sum
  · intro k _
    exact ((presMark_refer g i hs).2 (k+1)).2.2.2
  · refine ⟨i - 1, Finset.mem_range.mpr (by omega), ?_⟩
    have hi : i - 1 + 1 = i := by omega
    rw [hi]
    unfold markReferred setRec
    simp [hs, rank]

theorem passStep_false {p : Gc × Bool} {i : Nat} (h : (passStep p i).2 = false) :
    passStep p i = p ∧ p.2 = false ∧ (p.1.records i).status ≠ RecordStatus.Touched := by
  unfold passStep at h ⊢
  by_cases hs : (p.1.records i).status = RecordStatus.Touched
  · rw [if_pos hs] at h
    exact absurd h (by simp)
  · rw [if_neg hs] at h ⊢
    exact ⟨rfl, h, hs⟩

theorem passFold_false (l : List Nat) (p : Gc × Bool)
    (h : (l.foldl (fun q k => passStep q (k+1)) p).2 = false) :
    p.2 = false ∧ (l.foldl (fun q k => passStep q (k+1)) p).1 = p.1 ∧
    ∀ k ∈ l, (p.1.records (k+1)).status ≠ RecordStatus.Touched := by
  induction l generalizing p with
  | nil => exact ⟨h, rfl, by simp⟩
  | cons k l ih =>
    rw [List.foldl_cons] at h
    have ih' := ih (passStep p (k+1)) h
    have hp := passStep_false ih'.1
    refine ⟨hp.2.1, ?_, ?_⟩
    · rw [List.foldl_cons]
      rw [ih'.2.1, hp.1]
    · intro k' hk'
      rcases List.mem_cons.mp hk' with rfl | hmem
      · exact hp.2.2
      · have := ih'.2.2 k' hmem
        rw [hp.1] at this
        exact this

theorem markPass_false (g : Gc) (h : (markPass g).2 = false) :
    (markPass g).1 = g ∧
    ∀ k, k < g.record_count → (g.records (k+1)).status ≠ RecordStatus.Touched := by
  unfold markPass at h ⊢
  have hh := passFold_false (List.range g.record_count) (g, false) h
  exact ⟨hh.2.1, fun k hk => hh.2.2 k (List.mem_range.mpr hk)⟩

theorem markPass_true (g : Gc) (h : (markPass g).2 = true) :
    measN g.record_count g < measN g.record_count (markPass g).1 := by
  have hQ := foldl_inv (α := Gc × Bool) (β := Nat)
    (fun p => p.1.record_count = g.record_count ∧
      ((p.2 = false ∧ p.1 = g) ∨
       (p.2 = true ∧ measN g.record_count g < measN g.record_count p.1)))
    (fun k => k < g.record_count)
    (fun q k => passStep q (k+1))
    (by
      intro p k hk hQp
      dsimp only
      by_cases hs : (p.1.records (k+1)).status = RecordStatus.Touched
      · have hkc : passStep p (k+1) =
            (scan_touch (markReferred p.1 (k+1)) ((markReferred p.1 (k+1)).records (k+1)).addr
              (((markReferred p.1 (k+1)).records (k+1)).addr +
               ((markReferred p.1 (k+1)).records (k+1)).size), true) := by
          unfold passStep
          rw [if_pos hs]
        have pr : presMark p.1 (passStep p (k+1)).1 := (passStep_rel p (k+1)).1
        refine ⟨?_, Or.inr ⟨by rw [hkc], ?_⟩⟩
        · rw [sameShape_count pr.1, hQp.1]
        · have hm1 : measN g.record_count p.1 <
              measN g.record_count (markReferred p.1 (k+1)) :=
            measN_refer_lt g.record_count p.1 (k+1) (by omega) (by omega) hs
          have hm2 : measN g.record_count (markReferred p.1 (k+1)) ≤
              measN g.record_count (passStep p (k+1)).1 := by
            rw [hkc]
            exact presMark_measN _ (scan_touch_presMark _ _ _)
          rcases hQp.2 with ⟨_, hpg⟩ | ⟨_, hlt⟩
          · rw [hpg] at hm1 hm2
            omega
          · omega
      · have hkc : passStep p (k+1) = p := by
          unfold passStep
          rw [if_neg hs]
        rw [hkc]
        exact hQp)
    (List.range g.record_count)
    (fun k hk => List.mem_range.mp hk)
    (g, false) ⟨rfl, Or.inl ⟨rfl, rfl⟩⟩
  rcases hQ.2 with ⟨hf, _⟩ | ⟨_, hlt⟩
  · rw [show (List.range g.record_count).foldl (fun q k => passStep q (k+1)) (g, false) = markPass g from rfl] at hf
    rw [h] at hf
    exact absurd hf (by simp)
  · exact hlt

theorem markLoopF_fix (fuel : Nat) : ∀ g : Gc,
    2 * g.record_count - measN g.record_count g < fuel →
    (markPass (markLoopF fuel g)).2 = false := by
  induction fuel with
  | zero => intro g h; omega
  | succ m ih =>
    intro g h
    unfold markLoopF
    by_cases hf : (markPass g).2 = true
    · rw [if_pos hf]
      apply ih
      have hc : (markPass g).1.record_count = g.record_count :=
        sameShape_count (markPass_rel g).1
      have hlt := markPass_true g hf
      have hle := measN_le g.record_count (markPass g).1
      rw [hc]
      omega
    · rw [if_neg hf]
      have hf' : (markPass g).2 = false := by
        revert hf
        cases (markPass g).2 <;> simp
      rw [(markPass_false g hf').1]
      exact hf'

theorem markLoopF_no_touched (fuel : Nat) (g : Gc)
    (h : 2 * g.record_count - measN g.record_count g < fuel) :
    ∀ k, k < (markLoopF fuel g).record_count →
      ((markLoopF fuel g).records (k+1)).status ≠ RecordStatus.Touched :=
  (markPass_false _ (markLoopF_fix fuel g h)).2

theorem markPhase_no_touched (g : Gc) (b e : Nat) :
    ∀ k, k < (markPhase g b e).record_count →
      ((markPhase g b e).records (k+1)).status ≠ RecordStatus.Touched := by
  unfold markPhase
  apply markLoopF_no_touched
  have := Nat.sub_le (2 * (scan_touch (initRecords g) b e).record_count)
    (measN (scan_touch (initRecords g) b e).record_count (scan_touch (initRecords g) b e))
  omega

theorem markPhase_count (g : Gc) (b e : Nat) :
    (markPhase g b e).record_count = g.record_count := by
  have h1 := sameShape_count (markPhase_pres g b e).1
  have h2 := sameShape_count (tableMap_sameShape initF g g.record_count)
  unfold initRecords at h1
  rw [h1, h2]

theorem initRecords_records (g : Gc) (j : Nat) :
    (initRecords g).records j =
      if 1 ≤ j ∧ j ≤ g.record_count then initF (g.records j) else g.records j :=
  tableMap_records initF g g.record_count j

theorem sweep_records (g : Gc) (j : Nat) :
    (sweep g).records j =
      if 1 ≤ j ∧ j ≤ g.record_count then sweepF (g.records j) else g.records j :=
  tableMap_records sweepF g g.record_count j

theorem markPhase_dealloc_iff (g : Gc) (b e : Nat) (i : Nat)
    (h1 : 1 ≤ i) (h2 : i ≤ g.record_count) :
    (((markPhase g b e).records i).status = RecordStatus.Deallocated ↔
     (g.records i).status = RecordStatus.Deallocated) := by
  have hiff := ((markPhase_pres g b e).2 i).2.2.1
  rw [hiff]
  unfold initRecords
  rw [tableMap_records, if_pos ⟨h1, h2⟩]
  unfold initF
  by_cases hD : (g.records i).status = RecordStatus.Deallocated
  · rw [if_pos hD]
  · rw [if_neg hD]
    simp [hD]

theorem mfdFindAux_some (g : Gc) (k : Nat) :
    ∀ (rem i j : Nat), mfdFindAux g k i rem = some j →
      (g.records j).status = RecordStatus.Deallocated ∧ k ≤ (g.records j).size ∧
      i ≤ j ∧ j < i + rem ∧
      ∀ t, i ≤ t → t < j →
        ¬((g.records t).status = RecordStatus.Deallocated ∧ k ≤ (g.records t).size) := by
  intro rem
  induction rem with
  | zero =>
    intro i j h
    exact absurd h (by simp [mfdFindAux])
  | succ rem ih =>
    intro i j h
    unfold mfdFindAux at h
    by_cases hc : (g.records i).status = RecordStatus.Deallocated ∧ k ≤ (g.records i).size
    · rw [if_pos hc] at h
      injection h with h'
      subst h'
      exact ⟨hc.1, hc.2, le_refl _, by omega, fun t ht1 ht2 => by omega⟩
    · rw [if_neg hc] at h
      have hr := ih (i+1) j h
      refine ⟨hr.1, hr.2.1, by omega, by omega, ?_⟩
      intro t ht1 ht2
      by_cases ht : t = i
      · subst ht
        exact hc
      · exact hr.2.2.2.2 t (by omega) ht2

theorem mfdFindAux_none (g : Gc) (k : Nat) :
    ∀ (rem i : Nat), mfdFindAux g k i rem = none ↔
      ∀ t, i ≤ t → t < i + rem →
        ¬((g.records t).status = RecordStatus.Deallocated ∧ k ≤ (g.records t).size) := by
  intro rem
  induction rem with
  | zero =>
    intro i
    constructor
    · intro _ t ht1 ht2
      omega
    · intro _
      rfl
  | succ rem ih =>
    intro i
    unfold mfdFindAux
    by_cases hc : (g.records i).status = RecordStatus.Deallocated ∧ k ≤ (g.records i).size
    · rw [if_pos hc]
      constructor
      · intro h
        exact absurd h (by simp)
      · intro hall
        exact absurd hc (hall i (le_refl _) (by omega))
    · rw [if_neg hc]
      rw [ih (i+1)]
      constructor
      · intro hall t ht1 ht2
        by_cases ht : t = i
        · subst ht
          exact hc
        · exact hall t (by omega) (by omega)
      · intro hall t ht1 ht2
        exact hall t (by omega) (by omega)

theorem mfd_some (g : Gc) (k j : Nat) (h : malloc_from_deallocated g k = some j) :
    1 ≤ j ∧ j ≤ g.record_count ∧
    (g.records j).status = RecordStatus.Deallocated ∧ k ≤ (g.records j).size ∧
    ∀ t, 1 ≤ t → t < j →
      ¬((g.records t).status = RecordStatus.Deallocated ∧ k ≤ (g.records t).size) := by
  have hr := mfdFindAux_some g k g.record_count 1 j h
  exact ⟨hr.2.2.1, by omega, hr.1, hr.2.1, hr.2.2.2.2⟩

theorem mfd_none (g : Gc) (k : Nat) :
    malloc_from_deallocated g k = none ↔
      ∀ t, 1 ≤ t → t ≤ g.record_count →
        ¬((g.records t).status = RecordStatus.Deallocated ∧ k ≤ (g.records t).size) := by
  unfold malloc_from_deallocated
  rw [mfdFindAux_none]
  constructor
  · intro hall t ht1 ht2
    exact hall t ht1 (by omega)
  · intro hall t ht1 ht2
    exact hall t ht1 (by omega)

/-- C4: after a `cleanup` call, a record is `Deallocated` exactly when it
already was, or was in use and was not reached during the mark fixed point;
every record reached during marking ends the pass `Referred`; and a
reclaimed record is only handed out again for a request of size at most its
recorded size. -/
theorem cleanup_status_characterization (g : Gc) (b e : Nat)
    (hb : g.stack_begin = some b) (he : g.stack_end = some e)
    (g' : Gc) (hc : cleanup g = some g') :
    (∀ i, 1 ≤ i → i ≤ g.record_count →
      (((g'.records i).status = RecordStatus.Deallocated ↔
        ((g.records i).status = RecordStatus.Deallocated ∨
         ((g.records i).status ≠ RecordStatus.Deallocated ∧ ¬ reachedInMark g b e i))) ∧
       (reachedInMark g b e i → (g'.records i).status = RecordStatus.Referred))) ∧
    (∀ h k j, malloc_from_deallocated h k = some j → k ≤ (h.records j).size) := by
  have hg' : g' = sweep (markPhase g b e) := by
    rw [cleanup_eq g b e hb he] at hc
    injection hc with h'
    exact h'.symm
  subst hg'
  constructor
  · intro i hi1 hi2
    have hcnt := markPhase_count g b e
    have hnt : ((markPhase g b e).records i).status ≠ RecordStatus.Touched := by
      have hmt := markPhase_no_touched g b e (i-1) (by omega)
      rw [show i - 1 + 1 = i from by omega] at hmt
      exact hmt
    have hsw : (sweep (markPhase g b e)).records i = sweepF ((markPhase g b e).records i) := by
      rw [sweep_records, if_pos ⟨hi1, by omega⟩]
    unfold reachedInMark
    rw [hsw]
    unfold sweepF free_record
    cases hstat : ((markPhase g b e).records i).status with
    | Unknown =>
      have hDiff := markPhase_dealloc_iff g b e i hi1 hi2
      rw [hstat] at hDiff
      have hng : (g.records i).status ≠ RecordStatus.Deallocated := by
        intro hgg
        exact absurd (hDiff.mpr hgg) (by simp)
      refine ⟨?_, ?_⟩
      · simp [hstat, hng]
      · simp [hstat]
    | Touched => exact absurd hstat hnt
    | Referred =>
      have hDiff := markPhase_dealloc_iff g b e i hi1 hi2
      rw [hstat] at hDiff
      have hng : (g.records i).status ≠ RecordStatus.Deallocated := by
        intro hgg
        exact absurd (hDiff.mpr hgg) (by simp)
      refine ⟨?_, ?_⟩
      · simp [hstat, hng]
      · simp [hstat]
    | Deallocated =>
      have hDiff := markPhase_dealloc_iff g b e i hi1 hi2
      rw [hstat] at hDiff
      have hgd : (g.records i).status = RecordStatus.Deallocated := hDiff.mp rfl
      refine ⟨?_, ?_⟩
      · simp [hstat, hgd]
      · simp [hstat]
  · intro h k j hfind
    exact (mfd_some h k j hfind).2.2.2.1

theorem bumpCond_true_iff (g : Gc) (k : Nat) :
    bumpCond g k = true ↔
      k + record_size ≤ g.heap_end - g.heap_free - record_size * g.record_count := by
  unfold bumpCond
  exact decide_eq_true_iff

theorem bumpCond_false_iff (g : Gc) (k : Nat) :
    bumpCond g k = false ↔
      ¬ k + record_size ≤ g.heap_end - g.heap_free - record_size * g.record_count := by
  unfold bumpCond
  constructor
  · intro h hp
    rw [decide_eq_true hp] at h
    exact absurd h (by simp)
  · intro hp
    rw [decide_eq_false hp]

/-- C5: a `malloc` call with room on the bump path returns the old free
cursor, advances the cursor by exactly the requested size, extends the
table by one slot, and writes the fresh record there. -/
theorem malloc_bump_path (g : Gc) (k : Nat) (hk : 0 < k)
    (hroom : g.heap_free + k + record_size * (g.record_count + 1) ≤ g.heap_end) :
    malloc g k = some (some g.heap_free, bumpState g k) ∧
    (bumpState g k).heap_free = g.heap_free + k ∧
    (bumpState g k).record_count = g.record_count + 1 ∧
    (bumpState g k).records (g.record_count + 1) =
      ⟨g.heap_free, k, RecordStatus.Referred⟩ ∧
    (bumpState g k).heap_begin = g.heap_begin ∧
    (bumpState g k).heap_end = g.heap_end ∧
    (bumpState g k).mem = g.mem ∧
    ∀ j, j ≠ g.record_count + 1 → (bumpState g k).records j = g.records j := by
  have hcond : bumpCond g k = true := by
    rw [bumpCond_true_iff]
    unfold record_size at hroom ⊢
    omega
  refine ⟨?_, rfl, rfl, ?_, rfl, rfl, rfl, ?_⟩
  · unfold malloc
    rw [hcond]
    rw [if_pos rfl]
    rfl
  · unfold bumpState
    simp [setRec]
  · intro j hj
    unfold bumpState
    simp [setRec, hj]

/-- Witness for the bump-path theorem on the fresh arena `c5W`. -/
theorem malloc_bump_path_witness :
    0 < 8 ∧
    c5W.heap_free + 8 + record_size * (c5W.record_count + 1) ≤ c5W.heap_end ∧
    malloc c5W 8 = some (some c5W.heap_free, bumpState c5W 8) ∧
    (bumpState c5W 8).heap_free = 1008 ∧ (bumpState c5W 8).record_count = 1 ∧
    (bumpState c5W 8).records 1 = ⟨1000, 8, RecordStatus.Referred⟩ :=
  ⟨by decide, by decide,
   (malloc_bump_path c5W 8 (by decide) (by decide)).1,
   by decide, by decide, by decide⟩

/-- C6: when the bump path has no room, the reuse path picks the first
slot (in slot order) holding a `Deallocated` record of sufficient size,
returns that record's address, sets only its status to `Referred`, and
yields nothing when no such record exists. -/
theorem malloc_reuse_path (g : Gc) (k : Nat) (hb : bumpCond g k = false) :
    (∀ i, malloc_from_deallocated g k = some i →
      (1 ≤ i ∧ i ≤ g.record_count ∧
       (g.records i).status = RecordStatus.Deallocated ∧ k ≤ (g.records i).size ∧
       (∀ j, 1 ≤ j → j < i →
         ¬((g.records j).status = RecordStatus.Deallocated ∧ k ≤ (g.records j).size)) ∧
       malloc g k = some (some ((g.records i).addr), markReferred g i) ∧
       ((markReferred g i).records i).addr = (g.records i).addr ∧
       ((markReferred g i).records i).size = (g.records i).size ∧
       ((markReferred g i).records i).status = RecordStatus.Referred ∧
       (∀ j, j ≠ i → (markReferred g i).records j = g.records j))) ∧
    (malloc_from_deallocated g k = none ↔
      ∀ j, 1 ≤ j → j ≤ g.record_count →
        ¬((g.records j).status = RecordStatus.Deallocated ∧ k ≤ (g.records j).size)) := by
  constructor
  · intro i hi
    have hspec := mfd_some g k i hi
    refine ⟨hspec.1, hspec.2.1, hspec.2.2.1, hspec.2.2.2.1, hspec.2.2.2.2, ?_, ?_, ?_, ?_, ?_⟩
    · unfold malloc
      rw [hb]
      rw [if_neg (by simp)]
      rw [hi]
    · unfold markReferred
      simp [setRec]
    · unfold markReferred
      simp [setRec]
    · unfold markReferred
      simp [setRec]
    · intro j hj
      unfold markReferred
      simp [setRec, hj]
  · exact mfd_none g k

/-- Witness for the reuse-path theorem on `c6W`, whose first fitting
deallocated slot is slot 2. -/
theorem malloc_reuse_path_witness :
    bumpCond c6W 6 = false ∧ malloc_from_deallocated c6W 6 = some 2 ∧
    (1 ≤ 2 ∧ 2 ≤ c6W.record_count ∧
     (c6W.records 2).status = RecordStatus.Deallocated ∧ 6 ≤ (c6W.records 2).size ∧
     (∀ j, 1 ≤ j → j < 2 →
       ¬((c6W.records j).status = RecordStatus.Deallocated ∧ 6 ≤ (c6W.records j).size)) ∧
     malloc c6W 6 = some (some ((c6W.records 2).addr), markReferred c6W 2) ∧
     ((markReferred c6W 2).records 2).addr = (c6W.records 2).addr ∧
     ((markReferred c6W 2).records 2).size = (c6W.records 2).size ∧
     ((markReferred c6W 2).records 2).status = RecordStatus.Referred ∧
     (∀ j, j ≠ 2 → (markReferred c6W 2).records j = c6W.records j)) :=
  ⟨by decide, by decide,
   (malloc_reuse_path c6W 6 (by decide)).1 2 (by decide)⟩

/-- C3: when the bump path has no room and no deallocated record fits,
`malloc` runs exactly one cleanup, rescans once, returns the failure
outcome when that single retry finds nothing, and does not grow the
arena. -/
theorem malloc_collect_retry (g : Gc) (k : Nat)
    (h1 : bumpCond g k = false) (h2 : malloc_from_deallocated g k = none) :
    (malloc g k =
      match cleanup g with
      | none => none
      | some gC =>
        match malloc_from_deallocated gC k with
        | some i => some (some ((gC.records i).addr), markReferred gC i)
        | none => some (none, gC)) ∧
    (∀ gC, cleanup g = some gC → malloc_from_deallocated gC k = none →
      malloc g k = some (none, gC)) ∧
    (∀ gC, cleanup g = some gC →
      gC.heap_end = g.heap_end ∧ gC.heap_size = g.heap_size ∧
      gC.heap_free = g.heap_free ∧ gC.record_count = g.record_count) := by
  have hm : malloc g k =
      match cleanup g with
      | none => none
      | some gC =>
        match malloc_from_deallocated gC k with
        | some i => some (some ((gC.records i).addr), markReferred gC i)
        | none => some (none, gC) := by
    unfold malloc
    rw [h1]
    rw [if_neg (by simp)]
    rw [h2]
  refine ⟨hm, ?_, ?_⟩
  · intro gC hcg hm2
    rw [hm, hcg]
    simp [hm2]
  · intro gC hcg
    obtain ⟨hs, _⟩ := cleanup_pres g gC hcg
    exact ⟨hs.2.2.1, hs.2.2.2.1, hs.2.1, hs.2.2.2.2.2.2.1⟩

/-- Witness for the collect-and-retry theorem: on `c3W` the request for
100 bytes fails after exactly one cleanup. -/
theorem malloc_collect_retry_witness :
    bumpCond c3W 100 = false ∧ malloc_from_deallocated c3W 100 = none ∧
    cleanup c3W = some (sweep (markPhase c3W 100 101)) ∧
    malloc c3W 100 = some (none, sweep (markPhase c3W 100 101)) :=
  ⟨by decide, by decide, rfl,
   (malloc_collect_retry c3W 100 (by decide) (by decide)).2.1
     (sweep (markPhase c3W 100 101)) rfl (by decide)⟩

/-- C10: running the cleanup pass with an unset root bound panics (the
`unwrap` of `None`), modelled as the `none` outcome, rather than reporting
an error value; a `malloc` that falls through to its internal cleanup
propagates the panic. -/
theorem cleanup_unset_roots_panics (g : Gc)
    (h : g.stack_begin = none ∨ g.stack_end = none) :
    cleanup g = none ∧
    (∀ k, bumpCond g k = false → malloc_from_deallocated g k = none →
      malloc g k = none) := by
  have hcl : cleanup g = none := by
    unfold cleanup inner_cleanup
    rcases h with h | h
    · rw [h]
    · rw [h]
      rcases g.stack_begin with _ | b <;> rfl
  refine ⟨hcl, ?_⟩
  intro k hb hm
  unfold malloc
  rw [hb]
  rw [if_neg (by simp)]
  rw [hm, hcl]

/-- Witness for the unset-root panic theorem on `c10W`. -/
theorem cleanup_unset_roots_panics_witness :
    (c10W.stack_begin = none ∨ c10W.stack_end = none) ∧
    cleanup c10W = none ∧ malloc c10W 50 = none :=
  ⟨Or.inl rfl, (cleanup_unset_roots_panics c10W (Or.inl rfl)).1,
   (cleanup_unset_roots_panics c10W (Or.inl rfl)).2 50 (by decide) (by decide)⟩

/-- Witness for the cleanup characterization on `c4W`: record 2 is not
reached and is reclaimed, record 1 is reached and stays `Referred`. -/
theorem cleanup_status_characterization_witness :
    c4W.stack_begin = some 100 ∧ c4W.stack_end = some 116 ∧
    cleanup c4W = some c4W' ∧
    (((c4W'.records 2).status = RecordStatus.Deallocated ↔
      ((c4W.records 2).status = RecordStatus.Deallocated ∨
       ((c4W.records 2).status ≠ RecordStatus.Deallocated ∧
        ¬ reachedInMark c4W 100 116 2))) ∧
     (reachedInMark c4W 100 116 2 → (c4W'.records 2).status = RecordStatus.Referred)) ∧
    reachedInMark c4W 100 116 1 ∧ ¬ reachedInMark c4W 100 116 2 ∧
    (c4W'.records 2).status = RecordStatus.Deallocated ∧
    (c4W'.records 1).status = RecordStatus.Referred :=
  ⟨rfl, rfl, rfl,
   (cleanup_status_characterization c4W 100 116 rfl rfl c4W' rfl).1 2
     (by decide) (by decide),
   by unfold reachedInMark; decide, by unfold reachedInMark; decide,
   by decide, by decide⟩

/-- C9: a cleanup pass only changes record statuses: every record keeps
its address and size, the data memory is untouched, and all other state
components are unchanged. -/
theorem cleanup_frame_effect (g g' : Gc) (h : cleanup g = some g') :
    (∀ i, (g'.records i).addr = (g.records i).addr ∧
          (g'.records i).size = (g.records i).size) ∧
    g'.mem = g.mem ∧ g'.heap_begin = g.heap_begin ∧ g'.heap_free = g.heap_free ∧
    g'.heap_end = g.heap_end ∧ g'.heap_size = g.heap_size ∧
    g'.stack_begin = g.stack_begin ∧ g'.stack_end = g.stack_end ∧
    g'.record_count = g.record_count := by
  obtain ⟨hs, hr⟩ := cleanup_pres g g' h
  obtain ⟨a1, a2, a3, a4, a5, a6, a7, a8⟩ := hs
  exact ⟨hr, a8, a1, a2, a3, a4, a5, a6, a7⟩

/-- Witness for the cleanup frame theorem on `c9W`. -/
theorem cleanup_frame_effect_witness :
    cleanup c9W = some c9W' ∧
    (c9W'.records 1).addr = (c9W.records 1).addr ∧
    (c9W'.records 1).size = (c9W.records 1).size ∧
    c9W'.mem = c9W.mem ∧ c9W'.heap_free = c9W.heap_free ∧
    c9W'.record_count = c9W.record_count :=
  ⟨rfl, ((cleanup_frame_effect c9W c9W' rfl).1 1).1,
   ((cleanup_frame_effect c9W c9W' rfl).1 1).2,
   (cleanup_frame_effect c9W c9W' rfl).2.1,
   (cleanup_frame_effect c9W c9W' rfl).2.2.2.1,
   (cleanup_frame_effect c9W c9W' rfl).2.2.2.2.2.2.2.2⟩

theorem malloc_state (g : Gc) (k : Nat) (r : Option Nat) (s : Gc)
    (h : malloc g k = some (r, s)) :
    (bumpCond g k = true ∧ s = bumpState g k) ∨
    (bumpCond g k = false ∧
      ∃ i, malloc_from_deallocated g k = some i ∧ s = markReferred g i) ∨
    (bumpCond g k = false ∧ malloc_from_deallocated g k = none ∧
      ∃ gC, cleanup g = some gC ∧
        ((∃ i, malloc_from_deallocated gC k = some i ∧ s = markReferred gC i) ∨
         (malloc_from_deallocated gC k = none ∧ s = gC))) := by
  unfold malloc at h
  by_cases hb : bumpCond g k = true
  · rw [hb, if_pos rfl] at h
    left
    refine ⟨hb, ?_⟩
    simp only [Option.some.injEq, Prod.mk.injEq] at h
    exact h.2.symm
  · have hb' : bumpCond g k = false := by
      revert hb
      cases bumpCond g k <;> simp
    rw [hb', if_neg (by simp)] at h
    cases hm : malloc_from_deallocated g k with
    | some i =>
      rw [hm] at h
      simp only [Option.some.injEq, Prod.mk.injEq] at h
      exact Or.inr (Or.inl ⟨hb', i, rfl, h.2.symm⟩)
    | none =>
      rw [hm] at h
      dsimp only at h
      cases hcl : cleanup g with
      | none =>
        rw [hcl] at h
        exact absurd h (by simp)
      | some gC =>
        rw [hcl] at h
        dsimp only at h
        cases hm2 : malloc_from_deallocated gC k with
        | some i =>
          rw [hm2] at h
          simp only [Option.some.injEq, Prod.mk.injEq] at h
          exact Or.inr (Or.inr ⟨hb', rfl, gC, rfl, Or.inl ⟨i, hm2, h.2.symm⟩⟩)
        | none =>
          rw [hm2] at h
          simp only [Option.some.injEq, Prod.mk.injEq] at h
          exact Or.inr (Or.inr ⟨hb', rfl, gC, rfl, Or.inr ⟨hm2, h.2.symm⟩⟩)

theorem applyOp_effects (g : Gc) (op : GcOp) (g2 : Gc) (h : applyOp g op = some g2) :
    g.record_count ≤ g2.record_count ∧ g.heap_free ≤ g2.heap_free ∧
    g2.heap_begin = g.heap_begin ∧ g2.heap_end = g.heap_end ∧
    (arenaInv g → arenaInv g2) := by
  cases op with
  | malloc k =>
    unfold applyOp at h
    dsimp only at h
    cases hm : malloc g k with
    | none =>
      rw [hm] at h
      simp at h
    | some p =>
      rw [hm] at h
      simp only [Option.map_some', Option.some.injEq] at h
      subst h
      have hp : malloc g k = some (p.1, p.2) := hm
      rcases malloc_state g k p.1 p.2 hp with ⟨hb, hs⟩ | ⟨_, i, _, hs⟩ | ⟨_, _, gC, hcl, hrest⟩
      · rw [hs]
        have hbp := (bumpCond_true_iff g k).mp hb
        unfold bumpState
        refine ⟨by simp, by simp, rfl, rfl, ?_⟩
        intro hInv
        unfold arenaInv at hInv ⊢
        unfold record_size at hbp hInv ⊢
        simp only
        omega
      · rw [hs]
        unfold markReferred
        exact ⟨le_refl _, le_refl _, rfl, rfl, fun hI => hI⟩
      · obtain ⟨hsC, _⟩ := cleanup_pres g gC hcl
        have hfields : gC.record_count = g.record_count ∧ gC.heap_free = g.heap_free ∧
            gC.heap_begin = g.heap_begin ∧ gC.heap_end = g.heap_end :=
          ⟨hsC.2.2.2.2.2.2.1, hsC.2.1, hsC.1, hsC.2.2.1⟩
        rcases hrest with ⟨i, _, hs⟩ | ⟨_, hs⟩
        · rw [hs]
          unfold markReferred
          refine ⟨by rw [hfields.1], by rw [hfields.2.1], by rw [hfields.2.2.1],
            by rw [hfields.2.2.2], ?_⟩
          intro hInv
          unfold arenaInv at hInv ⊢
          rw [hfields.1, hfields.2.1, hfields.2.2.1, hfields.2.2.2]
          exact hInv
        · rw [hs]
          refine ⟨by rw [hfields.1], by rw [hfields.2.1], hfields.2.2.1,
            hfields.2.2.2, ?_⟩
          intro hInv
          unfold arenaInv at hInv ⊢
          rw [hfields.1, hfields.2.1, hfields.2.2.1, hfields.2.2.2]
          exact hInv
  | cleanup =>
    unfold applyOp at h
    dsimp only at h
    obtain ⟨hsC, _⟩ := cleanup_pres g g2 h
    refine ⟨by rw [hsC.2.2.2.2.2.2.1], by rw [hsC.2.1], hsC.1, hsC.2.2.1, ?_⟩
    intro hInv
    unfold arenaInv at hInv ⊢
    rw [hsC.2.2.2.2.2.2.1, hsC.2.1, hsC.1, hsC.2.2.1]
    exact hInv
  | stackBegin a =>
    unfold applyOp at h
    dsimp only at h
    simp only [Option.some.injEq] at h
    subst h
    exact ⟨le_refl _, le_refl _, rfl, rfl, fun hI => hI⟩
  | stackEnd a =>
    unfold applyOp at h
    dsimp only at h
    simp only [Option.some.injEq] at h
    subst h
    exact ⟨le_refl _, le_refl _, rfl, rfl, fun hI => hI⟩

theorem runOps_inv (ops : List GcOp) : ∀ (g g' : Gc), arenaInv g →
    runOps g ops = some g' → arenaInv g' := by
  induction ops with
  | nil =>
    intro g g' hInv h
    unfold runOps at h
    simp only [Option.some.injEq] at h
    rw [← h]
    exact hInv
  | cons op rest ih =>
    intro g g' hInv h
    unfold runOps at h
    cases happ : applyOp g op with
    | none =>
      rw [happ] at h
      exact absurd h (by simp)
    | some gm =>
      rw [happ] at h
      exact ih gm g' ((applyOp_effects g op gm happ).2.2.2.2 hInv) h

theorem runOps_count (ops : List GcOp) : ∀ (g g' : Gc),
    runOps g ops = some g' → g.record_count ≤ g'.record_count := by
  induction ops with
  | nil =>
    intro g g' h
    unfold runOps at h
    simp only [Option.some.injEq] at h
    rw [← h]
  | cons op rest ih =>
    intro g g' h
    unfold runOps at h
    cases happ : applyOp g op with
    | none =>
      rw [happ] at h
      exact absurd h (by simp)
    | some gm =>
      rw [happ] at h
      exact le_trans (applyOp_effects g op gm happ).1 (ih gm g' h)

/-- C7: `record_count` never decreases across any sequence of public
operations, and the sweep phase only rewrites statuses, never removing a
slot from the table. -/
theorem record_count_monotone (g : Gc) (ops : List GcOp) (g' : Gc)
    (h : runOps g ops = some g') :
    g.record_count ≤ g'.record_count ∧
    (∀ x : Gc, ∀ i, ((sweep x).records i).addr = (x.records i).addr ∧
      ((sweep x).records i).size = (x.records i).size ∧
      (sweep x).record_count = x.record_count) := by
  refine ⟨runOps_count ops g g' h, ?_⟩
  intro x i
  have hsk := tableMap_skeleton sweepF sweepF_skeleton x x.record_count i
  exact ⟨hsk.1, hsk.2, sameShape_count (tableMap_sameShape sweepF x x.record_count)⟩

/-- Witness for record-count monotonicity along `c7Ops` from the fresh
state `c7W`. -/
theorem record_count_monotone_witness :
    runOps c7W c7Ops = some c7W' ∧
    c7W.record_count ≤ c7W'.record_count ∧ c7W'.record_count = 2 :=
  ⟨rfl, (record_count_monotone c7W c7Ops c7W' rfl).1, by decide⟩

/-- C8: in every state reachable from a fresh `Gc`, the free cursor stays
between the arena bounds, the bump region does not overlap the record
table, the free cursor never decreases across a further operation, and a
`malloc` whose bump condition holds keeps the regions disjoint. -/
theorem arena_invariant_reachable (base n : Nat) (m0 : Nat → Nat) (r0 : Nat → Record)
    (ops : List GcOp) (g' : Gc)
    (h : runOps (Gc.new base n m0 r0) ops = some g') :
    (g'.heap_begin ≤ g'.heap_free ∧ g'.heap_free ≤ g'.heap_end ∧
     g'.heap_free + record_size * g'.record_count ≤ g'.heap_end) ∧
    (∀ op g2, applyOp g' op = some g2 → g'.heap_free ≤ g2.heap_free) ∧
    (∀ k, bumpCond g' k = true →
      g'.heap_free + k + record_size * (g'.record_count + 1) ≤ g'.heap_end) := by
  have hbase : arenaInv (Gc.new base n m0 r0) := by
    unfold arenaInv Gc.new
    simp
  have hInv : arenaInv g' := runOps_inv ops _ g' hbase h
  obtain ⟨hI1, hI2⟩ := hInv
  refine ⟨⟨hI1, by omega, hI2⟩, ?_, ?_⟩
  · intro op g2 h2
    exact (applyOp_effects g' op g2 h2).2.1
  · intro k hbk
    have hbp := (bumpCond_true_iff g' k).mp hbk
    unfold record_size at hbp hI2 ⊢
    omega

/-- Witness for the arena invariant along `c8Ops` from the fresh state
`c8W`. -/
theorem arena_invariant_reachable_witness :
    runOps c8W c8Ops = some c8W' ∧
    (c8W'.heap_begin ≤ c8W'.heap_free ∧ c8W'.heap_free ≤ c8W'.heap_end ∧
     c8W'.heap_free + record_size * c8W'.record_count ≤ c8W'.heap_end) ∧
    c8W'.heap_free = 2024 ∧ c8W'.record_count = 2 :=
  ⟨rfl,
   (arena_invariant_reachable 2000 512 (fun _ => 0)
     (fun _ => ⟨0, 0, RecordStatus.Referred⟩) c8Ops c8W' rfl).1,
   by decide, by decide⟩

theorem frLoop_fuel (g : Gc) (a : Nat) :
    ∀ (f1 f2 lo hi : Nat), hi - lo ≤ f1 → hi - lo ≤ f2 →
      frLoop g a f1 lo hi = frLoop g a f2 lo hi := by
  intro f1
  induction f1 with
  | zero =>
    intro f2 lo hi h1 h2
    cases f2 with
    | zero => rfl
    | succ f2 =>
      show frLoop g a 0 lo hi = frLoop g a (f2+1) lo hi
      simp only [frLoop]
      rw [if_neg (by omega)]
  | succ f1 ih =>
    intro f2 lo hi h1 h2
    cases f2 with
    | zero =>
      simp only [frLoop]
      rw [if_neg (by omega)]
    | succ f2 =>
      simp only [frLoop]
      by_cases hg : hi - lo > 1
      · rw [if_pos hg, if_pos hg]
        by_cases hc1 : (g.records ((lo + hi) / 2)).addr ≤ a
        · rw [if_pos hc1, if_pos hc1]
          by_cases hc2 : a < (g.records ((lo + hi) / 2)).addr + (g.records ((lo + hi) / 2)).size
          · rw [if_pos hc2, if_pos hc2]
          · rw [if_neg hc2, if_neg hc2]
            exact ih f2 ((lo + hi) / 2) hi (by omega) (by omega)
        · rw [if_neg hc1, if_neg hc1]
          exact ih f2 lo ((lo + hi) / 2) (by omega) (by omega)
      · rw [if_neg hg, if_neg hg]

theorem find_record_fuel_exact (g : Gc) (a : Nat) (f : Nat) (hf : g.record_count ≤ f) :
    (if g.heap_begin ≤ a ∧ a ≤ g.heap_end then some (frLoop g a f 0 g.record_count)
     else none) = find_record g a := by
  unfold find_record
  split
  · rw [frLoop_fuel g a f (g.record_count + 1) 0 g.record_count (by omega) (by omega)]
  · rfl

/-- C1 (evaluation of the code at the failing input): in `c1Gc` the word
at root address 100 is a genuine pointer to the first byte of the data
range of the single in-use record, yet the cleanup pass reclaims that
record — with a one-slot table the resolver never produces slot 1, so the
mark phase cannot reach it. -/
theorem c1_reachable_record_reclaimed :
    c1Gc.stack_begin = some 100 ∧ c1Gc.stack_end = some 108 ∧
    c1Gc.mem 100 = 1000 ∧
    (c1Gc.records 1).addr ≤ 1000 ∧
    1000 < (c1Gc.records 1).addr + (c1Gc.records 1).size ∧
    (c1Gc.records 1).status ≠ RecordStatus.Deallocated ∧
    c1Gc.record_count = 1 ∧
    (cleanup c1Gc).map (fun t => (t.records 1).status) = some RecordStatus.Deallocated := by
  decide

/-- C2 (evaluation of the code at the failing input): resolving the
in-bounds address 1500 in a state with an empty record table returns slot
0 — the transmuted bytes at `heap_end`, outside the table — instead of
nothing; the resolver in fact returns a record for every in-bounds
address. -/
theorem c2_resolver_empty_table :
    c2Gc.record_count = 0 ∧
    c2Gc.heap_begin ≤ 1500 ∧ 1500 ≤ c2Gc.heap_end ∧
    find_record c2Gc 1500 = some 0 := by
  decide

end Scgc
